import Mathlib

/-!
Shallow embedding of the GeoMentions pipeline
(`src/geomentions/geomentions.py`) and verification of its specification.

The Python code delegates Unicode classification to two external
facilities: `unicodedata.normalize('NFKC', ·)` and the `regex` package's
character classes `\p{L}` (letter), `\p{M}` (mark), `\p{N}` (number) and
`\s` (whitespace).  Those tables live outside the repository, so the
embedding abstracts them as a `UnicodeModel`; concrete theorems
instantiate it with `asciiUnicode`, which agrees with the real Unicode
tables on every character occurring in the concrete inputs used below
(the ASCII range plus U+2019, on all of which NFKC is also the identity).
-/

/-- Model of the external Unicode facilities used by `_split_text`:
NFKC normalization and the `regex` package's `\p{L}`, `\p{M}`, `\p{N}`,
`\s` character classes. -/
structure UnicodeModel where
  nfkc : String → String
  isLetter : Char → Bool
  isMark : Char → Bool
  isNumber : Char → Bool
  isSpace : Char → Bool

/-- The ASCII apostrophe U+0027, the literal quote in the possessive
regex `(?<=\p{L})'[\p{L}\p{M}]*`. -/
def apos : Char := Char.ofNat 39

/-- One gazetteer record, as produced by the index-preparation step:
fields `name`, `country_code`, `population`, `timezone`, `coordinates`.
`country_code` may be missing; `population` is a nonnegative integer;
`coordinates` is carried as an opaque payload. -/
structure GeoEntry where
  name : String
  country_code : Option String
  population : Nat
  timezone : String
  coordinates : String
deriving DecidableEq

/-- A gazetteer index: `dict.get`-style lookup from key to record. -/
def Gazetteer : Type := String → Option GeoEntry

/-- Mirror of the `GeoResult` class: a raw match pairing the matched key
with the fields of the entry it resolved to. -/
structure GeoResult where
  key : String
  name : String
  country_code : Option String
  population : Nat
  time_zone : String
  coordinates : String
deriving DecidableEq

/-- Mirror of `GeoResult.__init__`: populate the fields from a key and a
gazetteer entry. -/
def GeoResult.ofEntry (k : String) (e : GeoEntry) : GeoResult :=
  { key := k, name := e.name, country_code := e.country_code,
    population := e.population, time_zone := e.timezone,
    coordinates := e.coordinates }

/-- Mirror of the `CityMention` namedtuple. -/
structure CityMention where
  name : String
  count : Nat
  country_code : Option String
  population : Nat
  coordinates : String
deriving DecidableEq

/-- Mirror of `GeoMentionsResult`: the two aggregated mention lists. -/
structure GeoMentionsResult where
  city_mentions : List CityMention
  country_mentions : List CityMention
deriving DecidableEq

/-- Mirror of `GeoMentionsResult.filter_cities`: keep the city mentions
that pass every present filter (inclusive population bounds, exact
country-code equality). -/
def GeoMentionsResult.filter_cities (res : GeoMentionsResult)
    (min_population : Option Nat) (max_population : Option Nat)
    (country_code : Option String) : List CityMention :=
  res.city_mentions.filter (fun city =>
    (match min_population with
     | none => true
     | some m => decide (m ≤ city.population))
    && (match max_population with
        | none => true
        | some m => decide (city.population ≤ m))
    && (match country_code with
        | none => true
        | some c => decide (city.country_code = some c)))

/-- Model of `collections.Counter` over optional country codes: the
multiset of accumulated values together with the insertion-ordered key
list (a key becomes present the first time it is incremented; a missing
key reads as 0). -/
structure PyCounter where
  val : Option String → Nat
  keys : List (Option String)

/-- A fresh, empty counter. -/
def PyCounter.empty : PyCounter :=
  { val := fun _ => 0, keys := [] }

/-- Mirror of `counter[k] += n`. -/
def PyCounter.add (c : PyCounter) (k : Option String) (n : Nat) : PyCounter :=
  { val := fun x => if x = k then c.val x + n else c.val x,
    keys := if k ∈ c.keys then c.keys else c.keys ++ [k] }

/-- Python truthiness of an optional string: `None` and the empty string
are falsy, every other string is truthy (`if city.country_code:`). -/
def truthy : Option String → Bool
  | none => false
  | some s => decide (s ≠ "")

/-- One value of the `country_counts` rollup mapping. -/
structure RollupEntry where
  total_count : Nat
  implicit_count : Nat
  explicit_count : Nat
deriving DecidableEq

/-- The body of the city loop of `country_counts`: when the city's
country code is truthy, add its count to both the combined counter
(first component) and the implicit counter (second component); otherwise
skip the city entirely. -/
def cityStep (p : PyCounter × PyCounter) (city : CityMention) :
    PyCounter × PyCounter :=
  if truthy city.country_code then
    (p.1.add city.country_code city.count, p.2.add city.country_code city.count)
  else p

/-- The body of the country loop of `country_counts`: unconditionally
add the mention's count, under its (possibly missing) country code, to
both the combined counter (first component) and the explicit counter
(second component). -/
def countryStep (p : PyCounter × PyCounter) (country : CityMention) :
    PyCounter × PyCounter :=
  (p.1.add country.country_code country.count,
   p.2.add country.country_code country.count)

/-- Mirror of the `GeoMentionsResult.country_counts` property: run the
city loop (guarded by truthiness of the city's country code, feeding the
combined and the implicit counter), then the country loop (unguarded,
feeding the combined and the explicit counter), and read the three
counters off at every key of the combined counter, in insertion order. -/
def GeoMentionsResult.country_counts (res : GeoMentionsResult) :
    List (Option String × RollupEntry) :=
  let step1 := res.city_mentions.foldl cityStep (PyCounter.empty, PyCounter.empty)
  let step2 := res.country_mentions.foldl countryStep (step1.1, PyCounter.empty)
  step2.1.keys.map (fun k =>
    (k, { total_count := step2.1.val k, implicit_count := step1.2.val k,
          explicit_count := step2.2.val k }))

/-- Mirror of the `GeoMentions` object state: the `standardize_names`
flag and the two loaded gazetteer indices. -/
structure GeoMentions where
  standardize_names : Bool
  city_index : Gazetteer
  country_index : Gazetteer

/-- Mirror of `regex.sub(r"(?<=\p{L})'[\p{L}\p{M}]*", '', text)` on the
character list: scanning left to right over the original text, an ASCII
apostrophe whose preceding original character is a letter is deleted
together with the maximal following run of letters and marks; scanning
resumes after the run, the lookbehind still reading the original text.
`prevLetter` records whether the preceding original character is a
letter; `deleting` records whether we are inside a run being deleted. -/
def stripPoss (u : UnicodeModel) : Bool → Bool → List Char → List Char
  | _, _, [] => []
  | prevLetter, deleting, c :: rest =>
    if deleting && (u.isLetter c || u.isMark c) then
      stripPoss u (u.isLetter c) true rest
    else if prevLetter && decide (c = apos) then
      stripPoss u false true rest
    else
      c :: stripPoss u (u.isLetter c) false rest

/-- Mirror of `regex.sub(r"[^\p{L}\p{M}\p{N}\s]", " ", text)`: every
character that is not a letter, mark, number or whitespace becomes a
single space. -/
def replaceNonWord (u : UnicodeModel) (l : List Char) : List Char :=
  l.map (fun c =>
    if u.isLetter c || u.isMark c || u.isNumber c || u.isSpace c then c
    else ' ')

/-- Mirror of Python `str.split()`: split on whitespace runs, discarding
empty pieces.  `acc` holds the current word, reversed. -/
def splitWsAux (u : UnicodeModel) : List Char → List Char → List (List Char)
  | [], [] => []
  | [], acc => [acc.reverse]
  | c :: rest, acc =>
    if u.isSpace c then
      match acc with
      | [] => splitWsAux u rest []
      | _ => acc.reverse :: splitWsAux u rest []
    else
      splitWsAux u rest (c :: acc)

/-- Mirror of `GeoMentions._split_text`: NFKC-normalize, strip
possessives, replace non-word characters with spaces, split on
whitespace. -/
def split_text (u : UnicodeModel) (text : String) : List String :=
  (splitWsAux u (replaceNonWord u (stripPoss u false false (u.nfkc text).data)) []).map
    (fun w => String.mk w)

/-- Mirror of `GeoMentions._generate_bigrams`: all pairs of consecutive
words, in order.  `words.zip words.tail` is exactly
`[(w[i], w[i+1]) for i in range(len(w) - 1)]`. -/
def generate_bigrams (words : List String) : List (String × String) :=
  words.zip words.tail

/-- One iteration of the bigram loop in `_find_mentions`: join the
bigram with a single space, look it up, and on a hit append the match to
the collection and both constituent words to the consumed set (the set
is modelled as a list queried by membership). -/
def bigramStep (index : Gazetteer) (acc : List GeoResult × List String)
    (bg : String × String) : List GeoResult × List String :=
  let bigram_lookup := bg.1 ++ " " ++ bg.2
  match index bigram_lookup with
  | some entry =>
    (acc.1 ++ [GeoResult.ofEntry bigram_lookup entry], acc.2 ++ [bg.1, bg.2])
  | none => acc

/-- One iteration of the unigram loop in `_find_mentions`: skip the word
if it was consumed by a bigram match, otherwise look it up and append a
match on a hit. -/
def unigramStep (index : Gazetteer) (matched_words : List String)
    (acc : List GeoResult) (word : String) : List GeoResult :=
  if word ∈ matched_words then acc
  else
    match index word with
    | some entry => acc ++ [GeoResult.ofEntry word entry]
    | none => acc

/-- Mirror of `GeoMentions._find_mentions` after tokenization: the
single-token special case, otherwise the bigram pass followed by the
unigram pass over the words not consumed by a bigram match. -/
def find_mentions_words (index : Gazetteer) (words : List String) :
    List GeoResult :=
  match words with
  | [w] =>
    match index w with
    | some entry => [GeoResult.ofEntry w entry]
    | none => []
  | _ =>
    let bp := (generate_bigrams words).foldl (bigramStep index) ([], [])
    words.foldl (unigramStep index bp.2) bp.1

/-- Mirror of `GeoMentions._find_mentions`: tokenize, then match against
the given index. -/
def find_mentions (u : UnicodeModel) (index : Gazetteer) (sample : String) :
    List GeoResult :=
  find_mentions_words index (split_text u sample)

/-- The aggregation grouping key of `count_results`: the standardized
name when `standardize_names` is set, otherwise the literal matched
key. -/
def keyFn (standardize_names : Bool) (result : GeoResult) : String :=
  if standardize_names then result.name else result.key

/-- Mirror of `Counter(key_fn(city) for city in collection)[k]`: the
number of raw matches whose grouping key is `k`. -/
def countKey (kf : GeoResult → String) (collection : List GeoResult)
    (k : String) : Nat :=
  (collection.filter (fun r => decide (kf r = k))).length

/-- Python `d[k] = v` on an insertion-ordered dict modelled as an
association list: an existing key keeps its position and gets the new
value, a new key is appended at the end. -/
def dictInsert (d : List (String × GeoResult)) (k : String) (v : GeoResult) :
    List (String × GeoResult) :=
  if d.any (fun p => decide (p.1 = k)) then
    d.map (fun p => if p.1 = k then (k, v) else p)
  else
    d ++ [(k, v)]

/-- Mirror of the dict comprehension
`{key_fn(city): city for city in collection}` with Python dict
semantics (insertion order of first occurrence, last value wins). -/
def buildDict (kf : GeoResult → String) (collection : List GeoResult) :
    List (String × GeoResult) :=
  collection.foldl (fun d r => dictInsert d (kf r) r) []

/-- The last raw match in `collection` whose grouping key is `k`, the
representative whose fields the Python dict comprehension retains. -/
def lastWith (kf : GeoResult → String) (collection : List GeoResult)
    (k : String) : Option GeoResult :=
  (collection.filter (fun r => decide (kf r = k))).getLast?

/-- Index of the first raw match in `collection` whose grouping key is
`k` (the first-appearance position that orders tied mentions). -/
def firstKeyIdx (kf : GeoResult → String) (collection : List GeoResult)
    (k : String) : Nat :=
  collection.findIdx (fun r => decide (kf r = k))

/-- The comparison under which `count_results` sorts: descending by
count.  Python's `sorted(..., key=lambda x: x.count, reverse=True)` is a
stable sort realizing exactly this relation. -/
def mentionGE (a b : CityMention) : Prop := b.count ≤ a.count

instance : DecidableRel mentionGE := fun a b =>
  inferInstanceAs (Decidable (b.count ≤ a.count))

instance : IsTotal CityMention mentionGE :=
  ⟨fun a b => (Nat.le_total b.count a.count).imp id id⟩

instance : IsTrans CityMention mentionGE :=
  ⟨fun _ _ _ h1 h2 => Nat.le_trans h2 h1⟩

/-- The `CityMention` built by the list comprehension of
`count_results` for one entry of the dict of representatives: the
grouping key, its count, and the non-count fields of the retained
representative. -/
def mkMention (kf : GeoResult → String) (collection : List GeoResult)
    (p : String × GeoResult) : CityMention :=
  { name := p.1, count := countKey kf collection p.1,
    country_code := p.2.country_code, population := p.2.population,
    coordinates := p.2.coordinates }

/-- Mirror of `GeoMentions.count_results`: count the grouping keys, keep
one representative per key with Python dict semantics, build one
`CityMention` per key, and stable-sort descending by count
(`List.insertionSort` is a stable sort, like Python's `sorted`). -/
def count_results (collection : List GeoResult) (standardize_names : Bool) :
    List CityMention :=
  List.insertionSort mentionGE
    ((buildDict (keyFn standardize_names) collection).map
      (mkMention (keyFn standardize_names) collection))

/-- Mirror of `GeoMentions.fit`: find mentions at both levels, aggregate
both collections with the configured `standardize_names` flag, and wrap
them in a `GeoMentionsResult`. -/
def GeoMentions.fit (g : GeoMentions) (u : UnicodeModel) (text : String) :
    GeoMentionsResult :=
  let city_collection := find_mentions u g.city_index text
  let country_collection := find_mentions u g.country_index text
  { city_mentions := count_results city_collection g.standardize_names,
    country_mentions := count_results country_collection g.standardize_names }

/-- No token and no adjacent token pair of `words` hits `index`. -/
def noHit (index : Gazetteer) (words : List String) : Prop :=
  (∀ w ∈ words, index w = none) ∧
  (∀ p ∈ generate_bigrams words, index (p.1 ++ " " ++ p.2) = none)

/-- Concrete instantiation of the Unicode model: identity NFKC and
ASCII classifiers.  It agrees with the real Unicode data (NFKC and the
`\p{L}`, `\p{M}`, `\p{N}`, `\s` classes) on the ASCII range and on
U+2019, which together cover every concrete input below. -/
def asciiUnicode : UnicodeModel :=
  { nfkc := id, isLetter := Char.isAlpha, isMark := fun _ => false,
    isNumber := Char.isDigit, isSpace := Char.isWhitespace }

/-- Lookbehind state after a deleted run: whether the last character of
the run is a letter (or `p`, the state before the run, if the run is
empty, in which case the preceding original character is unchanged). -/
def runState (u : UnicodeModel) (p : Bool) : List Char → Bool
  | [] => p
  | d :: run => runState u (u.isLetter d) run

/-- Gazetteer entry for Paris used in the end-to-end example. -/
def parisEntry : GeoEntry :=
  { name := "Paris", country_code := some "FR", population := 2000000,
    timezone := "Europe/Paris", coordinates := "(48.85, 2.35)" }

/-- Gazetteer entry for France used in the end-to-end example. -/
def franceEntry : GeoEntry :=
  { name := "France", country_code := some "FR", population := 67000000,
    timezone := "Europe/Paris", coordinates := "(46.0, 2.0)" }

/-- City gazetteer with exactly the lowercase key `"paris"`, as the
claimed end-to-end example states it. -/
def lowerCityIndex : Gazetteer :=
  fun s => if s = "paris" then some parisEntry else none

/-- Country gazetteer with exactly the lowercase key `"france"`, as the
claimed end-to-end example states it. -/
def lowerCountryIndex : Gazetteer :=
  fun s => if s = "france" then some franceEntry else none

/-- City gazetteer keyed by the case-preserving key `"Paris"`, matching
the tokens the normalizer actually produces. -/
def capCityIndex : Gazetteer :=
  fun s => if s = "Paris" then some parisEntry else none

/-- Country gazetteer keyed by the case-preserving key `"France"`. -/
def capCountryIndex : Gazetteer :=
  fun s => if s = "France" then some franceEntry else none

/-- The end-to-end example text. -/
def exampleText : String := "I love Paris and France. Paris is beautiful."

/-- Gazetteer entry for New York, used for the bigram-priority claims. -/
def nyEntry : GeoEntry :=
  { name := "New York", country_code := some "US", population := 8000000,
    timezone := "America/New_York", coordinates := "(40.7, -74.0)" }

/-- Gazetteer entry for a standalone key `"City"`. -/
def cityEntry : GeoEntry :=
  { name := "City", country_code := some "US", population := 1000,
    timezone := "America/New_York", coordinates := "(0, 0)" }

/-- Gazetteer holding the bigram key `"New York"` and the unigram key
`"City"`. -/
def nyIndex : Gazetteer :=
  fun s =>
    if s = "New York" then some nyEntry
    else if s = "City" then some cityEntry
    else none

/-- Gazetteer entry keyed by the bigram `"A B"`. -/
def abEntry : GeoEntry :=
  { name := "AB", country_code := some "AA", population := 10,
    timezone := "Zone", coordinates := "(1, 1)" }

/-- Gazetteer entry keyed by the unigram `"A"`. -/
def aEntry : GeoEntry :=
  { name := "Aplace", country_code := some "AA", population := 5,
    timezone := "Zone", coordinates := "(2, 2)" }

/-- Gazetteer holding the bigram key `"A B"` and the unigram key `"A"`,
used to show that value-based suppression also skips occurrences of
`"A"` outside the matched bigram span. -/
def abIndex : Gazetteer :=
  fun s =>
    if s = "A B" then some abEntry
    else if s = "A" then some aEntry
    else none

/-- Two raw matches with different literal keys but the same
standardized name and different representative fields. -/
def rX : GeoResult :=
  { key := "x", name := "N", country_code := some "XX", population := 1,
    time_zone := "Z1", coordinates := "c1" }

/-- Second raw match collapsing to the same standardized name as `rX`
but carrying different non-count fields. -/
def rY : GeoResult :=
  { key := "y", name := "N", country_code := some "YY", population := 2,
    time_zone := "Z2", coordinates := "c2" }

/-- A raw match with a distinct grouping key `"M"`. -/
def rZ : GeoResult :=
  { key := "z", name := "M", country_code := some "ZZ", population := 3,
    time_zone := "Z3", coordinates := "c3" }

/-- Concrete collection for the aggregation claims: key `"N"` occurs
twice (representative should be `rY`, the last one), key `"M"` once. -/
def collAgg : List GeoResult := [rX, rZ, rY]

/-- Concrete collection with two distinct keys of equal count, to witness
the tie-breaking order. -/
def collTie : List GeoResult := [rX, rZ]

/-- The aggregated mention produced for grouping key `"N"` of
`collAgg`. -/
def mAggN : CityMention :=
  { name := "N", count := 2, country_code := some "YY", population := 2,
    coordinates := "c2" }

/-- The aggregated mention for `rX` inside `collTie`. -/
def mTieN : CityMention :=
  { name := "N", count := 1, country_code := some "XX", population := 1,
    coordinates := "c1" }

/-- The aggregated mention for `rZ` inside `collTie`. -/
def mTieM : CityMention :=
  { name := "M", count := 1, country_code := some "ZZ", population := 3,
    coordinates := "c3" }

/-- Concrete result used to witness the rollup claims: one city with a
country code and one country mention with a different code. -/
def resRoll : GeoMentionsResult :=
  { city_mentions := [{ name := "Berlin", count := 2, country_code := some "DE",
                        population := 3600000, coordinates := "b" }],
    country_mentions := [{ name := "France", count := 1, country_code := some "FR",
                           population := 67000000, coordinates := "f" }] }

/-- Concrete result used to witness the missing-country-code asymmetry:
a city mention without a code and a country mention without a code. -/
def resNone : GeoMentionsResult :=
  { city_mentions := [{ name := "Nowhere", count := 5, country_code := none,
                        population := 0, coordinates := "n" }],
    country_mentions := [{ name := "Atlantis", count := 7, country_code := none,
                           population := 0, coordinates := "a" }] }

/-- Concrete result used to witness the filtering claim. -/
def resFilter : GeoMentionsResult :=
  { city_mentions := [{ name := "Berlin", count := 2, country_code := some "DE",
                        population := 3600000, coordinates := "b" },
                      { name := "Paris", count := 1, country_code := some "FR",
                        population := 2000000, coordinates := "p" }],
    country_mentions := [] }

/-- C1 (counterexample): running `fit` on the example text against
gazetteers keyed exactly by the lowercase keys `"paris"` and `"france"`
produces no mentions at all — the normalizer performs no case folding,
so the tokens `"Paris"` and `"France"` miss the lowercase keys — hence
no city mention `("Paris", 2)` and no `"FR"` rollup entry exist. -/
theorem claim_C1_counterexample :
    GeoMentions.fit
        { standardize_names := true, city_index := lowerCityIndex,
          country_index := lowerCountryIndex } asciiUnicode exampleText =
      { city_mentions := [], country_mentions := [] } ∧
    GeoMentionsResult.country_counts
        (GeoMentions.fit
          { standardize_names := true, city_index := lowerCityIndex,
            country_index := lowerCountryIndex } asciiUnicode exampleText) = [] := by
  decide

/-- C1 (amended): with the case-preserving keys `"Paris"` and `"France"`
(the form the index build actually stores), `fit` on
`"I love Paris and France. Paris is beautiful."` yields the city mention
`("Paris", 2)`, the country mention `("France", 1)`, and the rollup
`{FR ↦ (total 3, implicit 2, explicit 1)}`. -/
theorem claim_C1 :
    GeoMentions.fit
        { standardize_names := true, city_index := capCityIndex,
          country_index := capCountryIndex } asciiUnicode exampleText =
      { city_mentions := [{ name := "Paris", count := 2, country_code := some "FR",
                            population := 2000000, coordinates := "(48.85, 2.35)" }],
        country_mentions := [{ name := "France", count := 1, country_code := some "FR",
                               population := 67000000, coordinates := "(46.0, 2.0)" }] } ∧
    GeoMentionsResult.country_counts
        (GeoMentions.fit
          { standardize_names := true, city_index := capCityIndex,
            country_index := capCountryIndex } asciiUnicode exampleText) =
      [(some "FR", { total_count := 3, implicit_count := 2, explicit_count := 1 })] := by
  decide

/-- C7: `filter_cities` with no filters is the identity on the stored
city mentions; in general a city is kept iff it passes every present
filter (inclusive bounds, exact code equality); and a lower bound above
the upper bound yields the empty list. -/
theorem claim_C7 (res : GeoMentionsResult) (minP maxP : Option Nat)
    (cc : Option String) :
    res.filter_cities none none none = res.city_mentions ∧
    (∀ m, m ∈ res.filter_cities minP maxP cc ↔
      (m ∈ res.city_mentions ∧ (∀ a, minP = some a → a ≤ m.population) ∧
       (∀ b, maxP = some b → m.population ≤ b) ∧
       (∀ c, cc = some c → m.country_code = some c))) ∧
    (∀ a b, minP = some a → maxP = some b → b < a →
      res.filter_cities minP maxP cc = []) := by
  refine ⟨?_, ?_, ?_⟩
  · simp [GeoMentionsResult.filter_cities]
  · intro m
    cases minP <;> cases maxP <;> cases cc <;>
      simp [GeoMentionsResult.filter_cities, List.mem_filter] <;>
      intro _ <;> tauto
  · intro a b ha hb hlt
    subst ha
    subst hb
    rw [GeoMentionsResult.filter_cities, List.filter_eq_nil_iff]
    intro city _
    simp only [Bool.and_eq_true, decide_eq_true_eq]
    rintro ⟨⟨h1, h2⟩, -⟩
    omega

/-- Witness for C7 at a concrete result: no filters is the identity, and
`min_population = 10 > 5 = max_population` yields the empty list. -/
theorem claim_C7_witness :
    resFilter.filter_cities none none none = resFilter.city_mentions ∧
    resFilter.filter_cities (some 10) (some 5) none = [] :=
  ⟨(claim_C7 resFilter none none none).1,
   (claim_C7 resFilter (some 10) (some 5) none).2.2 10 5 rfl rfl (by decide)⟩

/-- Inside a deletion run, `stripPoss` consumes a whole run of letters
and marks, ending in the lookbehind state `runState u p run`. -/
theorem stripPoss_run (u : UnicodeModel) :
    ∀ (run : List Char) (p : Bool) (rest : List Char),
      (∀ d ∈ run, (u.isLetter d || u.isMark d) = true) →
      stripPoss u p true (run ++ rest) = stripPoss u (runState u p run) true rest
  | [], _, _, _ => rfl
  | d :: run, p, rest, h => by
    have hd : (u.isLetter d || u.isMark d) = true := h d (List.mem_cons_self d run)
    rw [List.cons_append]
    rw [show stripPoss u p true (d :: (run ++ rest)) =
          stripPoss u (u.isLetter d) true (run ++ rest) by simp [stripPoss, hd]]
    exact stripPoss_run u run (u.isLetter d) rest
      (fun d2 h2 => h d2 (List.mem_cons_of_mem d h2))

/-- When the next character is not a letter or mark (or the text ends),
the deleting state behaves exactly like the normal scanning state. -/
theorem stripPoss_exit (u : UnicodeModel) (p : Bool) (rest : List Char)
    (h : ∀ d, rest.head? = some d → (u.isLetter d || u.isMark d) = false) :
    stripPoss u p true rest = stripPoss u p false rest := by
  cases rest with
  | nil => rfl
  | cons d tail =>
    have hd := h d rfl
    simp [stripPoss, hd]

/-- C5 (amended): the possessive stripping applies to the ASCII
apostrophe only — an ASCII apostrophe immediately following a letter is
deleted together with the maximal following run of letters and marks,
with no whitespace boundary required before the word (`prev` is an
arbitrary scanning state), and `"Tokyo's population"` normalizes to
`["Tokyo", "population"]`. -/
theorem claim_C5 :
    (∀ (u : UnicodeModel) (prev : Bool) (c : Char) (run rest : List Char),
      u.isLetter c = true → u.isLetter apos = false →
      (∀ d ∈ run, (u.isLetter d || u.isMark d) = true) →
      (∀ d, rest.head? = some d → (u.isLetter d || u.isMark d) = false) →
      stripPoss u prev false (c :: apos :: (run ++ rest)) =
        c :: stripPoss u (runState u false run) false rest) ∧
    split_text asciiUnicode "Tokyo's population" = ["Tokyo", "population"] := by
  constructor
  · intro u prev c run rest hc hap hrun hrest
    have hca : decide (c = apos) = false := by
      refine decide_eq_false (fun h => ?_)
      rw [h, hap] at hc
      exact Bool.false_ne_true hc
    rw [show stripPoss u prev false (c :: apos :: (run ++ rest)) =
          c :: stripPoss u (u.isLetter c) false (apos :: (run ++ rest)) by
        simp [stripPoss, hca]]
    rw [show stripPoss u (u.isLetter c) false (apos :: (run ++ rest)) =
          stripPoss u false true (run ++ rest) by simp [stripPoss, hc]]
    rw [stripPoss_run u run false rest hrun, stripPoss_exit u _ rest hrest]
  · decide

/-- Witness for C5 at concrete inputs: `stripPoss` deletes `'s` after
the letter `o`, and the concrete sentence tokenizes as claimed. -/
theorem claim_C5_witness :
    stripPoss asciiUnicode false false ['o', apos, 's'] = ['o'] ∧
    split_text asciiUnicode "Tokyo's population" = ["Tokyo", "population"] := by
  constructor
  · have h := claim_C5.1 asciiUnicode false 'o' ['s'] [] (by decide) (by decide)
      (by decide) (by intro d hd; simp at hd)
    simpa using h
  · exact claim_C5.2

/-- C5 (counterexample): the claim extends possessive stripping to every
apostrophe character, but for U+2019 (the Unicode right single quotation
mark, NFKC-invariant and neither letter, mark, number nor whitespace)
the possessive pattern does not fire; the quote is replaced by a space
instead, so the trailing `s` survives as its own token. -/
theorem claim_C5_counterexample :
    split_text asciiUnicode ("Tokyo" ++ String.mk [Char.ofNat 8217] ++ "s population") =
      ["Tokyo", "s", "population"] ∧
    split_text asciiUnicode ("Tokyo" ++ String.mk [Char.ofNat 8217] ++ "s population") ≠
      ["Tokyo", "population"] := by
  decide

/-- A bigram pass in which every probed pair misses leaves the
accumulator unchanged. -/
theorem foldl_bigram_nohit (index : Gazetteer) :
    ∀ (bgs : List (String × String)) (acc : List GeoResult × List String),
      (∀ p ∈ bgs, index (p.1 ++ " " ++ p.2) = none) →
      bgs.foldl (bigramStep index) acc = acc
  | [], _, _ => rfl
  | bg :: bgs, acc, h => by
    have hbg := h bg (List.mem_cons_self bg bgs)
    have hstep : bigramStep index acc bg = acc := by
      simp [bigramStep, hbg]
    rw [List.foldl_cons, hstep]
    exact foldl_bigram_nohit index bgs acc (fun p hp => h p (List.mem_cons_of_mem bg hp))

/-- A unigram pass in which every probed word misses leaves the
accumulator unchanged. -/
theorem foldl_unigram_nohit (index : Gazetteer) (matched : List String) :
    ∀ (ws : List String) (acc : List GeoResult),
      (∀ w ∈ ws, index w = none) →
      ws.foldl (unigramStep index matched) acc = acc
  | [], _, _ => rfl
  | w :: ws, acc, h => by
    have hw := h w (List.mem_cons_self w ws)
    have hstep : unigramStep index matched acc w = acc := by
      simp [unigramStep, hw]
    rw [List.foldl_cons, hstep]
    exact foldl_unigram_nohit index matched ws acc
      (fun w2 h2 => h w2 (List.mem_cons_of_mem w h2))

/-- If no token and no adjacent pair hits the gazetteer, the matcher
returns the empty match list. -/
theorem find_mentions_words_nohit (index : Gazetteer) (words : List String)
    (h : noHit index words) : find_mentions_words index words = [] := by
  cases words with
  | nil => rfl
  | cons w ws =>
    cases ws with
    | nil =>
      have hw := h.1 w (List.mem_cons_self w [])
      simp [find_mentions_words, hw]
    | cons w2 ws2 =>
      have hbg := foldl_bigram_nohit index (generate_bigrams (w :: w2 :: ws2))
        ([], []) h.2
      show (w :: w2 :: ws2).foldl
          (unigramStep index
            ((generate_bigrams (w :: w2 :: ws2)).foldl (bigramStep index) ([], [])).2)
          ((generate_bigrams (w :: w2 :: ws2)).foldl (bigramStep index) ([], [])).1 = []
      rw [hbg]
      exact foldl_unigram_nohit index [] (w :: w2 :: ws2) [] h.1

/-- C6: `fit` is a total function — for every gazetteer pair, Unicode
model and input text it returns a `GeoMentionsResult` — and when the
tokens of the text produce no gazetteer hits on a side, that side's
mention sequence is empty rather than an error. -/
theorem claim_C6 (g : GeoMentions) (u : UnicodeModel) (text : String) :
    ∃ r : GeoMentionsResult, g.fit u text = r ∧
      (noHit g.city_index (split_text u text) → r.city_mentions = []) ∧
      (noHit g.country_index (split_text u text) → r.country_mentions = []) := by
  refine ⟨g.fit u text, rfl, ?_, ?_⟩
  · intro h
    show count_results (find_mentions u g.city_index text) g.standardize_names = []
    rw [find_mentions, find_mentions_words_nohit g.city_index _ h]
    rfl
  · intro h
    show count_results (find_mentions u g.country_index text) g.standardize_names = []
    rw [find_mentions, find_mentions_words_nohit g.country_index _ h]
    rfl

/-- Witness for C6: against empty gazetteers, `fit` on a concrete text
returns a result with an empty city mention list. -/
theorem claim_C6_witness :
    (GeoMentions.fit
      { standardize_names := true, city_index := fun _ => none,
        country_index := fun _ => none } asciiUnicode "hello world").city_mentions = [] := by
  obtain ⟨r, hr, hcity, -⟩ :=
    claim_C6
      { standardize_names := true, city_index := fun _ => none,
        country_index := fun _ => none } asciiUnicode "hello world"
  rw [hr]
  exact hcity ⟨fun _ _ => rfl, fun _ _ => rfl⟩

/-- C2: on tokens `["New", "York", "City"]` against any gazetteer
containing the bigram key `"New York"` (and in which the only bigram the
scenario turns on is that one, i.e. `"York City"` is not a key), the
matcher emits the bigram match, never emits a unigram match for `"New"`
or `"York"` (both consumed), and still probes `"City"` as a unigram,
emitting it exactly on a gazetteer hit. -/
theorem claim_C2 (index : Gazetteer) (e1 : GeoEntry)
    (hNY : index "New York" = some e1) (hYC : index "York City" = none) :
    GeoResult.ofEntry "New York" e1 ∈ find_mentions_words index ["New", "York", "City"] ∧
    (∀ r ∈ find_mentions_words index ["New", "York", "City"],
      r.key ≠ "New" ∧ r.key ≠ "York") ∧
    (∀ c, index "City" = some c →
      GeoResult.ofEntry "City" c ∈ find_mentions_words index ["New", "York", "City"]) := by
  have hbp : (generate_bigrams ["New", "York", "City"]).foldl (bigramStep index) ([], []) =
      ([GeoResult.ofEntry "New York" e1], ["New", "York"]) := by
    simp [generate_bigrams, bigramStep, hNY, hYC]
  have hout : find_mentions_words index ["New", "York", "City"] =
      List.foldl (unigramStep index ["New", "York"])
        [GeoResult.ofEntry "New York" e1] ["New", "York", "City"] := by
    show List.foldl
        (unigramStep index
          ((generate_bigrams ["New", "York", "City"]).foldl (bigramStep index) ([], [])).2)
        ((generate_bigrams ["New", "York", "City"]).foldl (bigramStep index) ([], [])).1
        ["New", "York", "City"] = _
    rw [hbp]
  rcases hC : index "City" with _ | c
  · have hfin : find_mentions_words index ["New", "York", "City"] =
        [GeoResult.ofEntry "New York" e1] := by
      rw [hout]
      simp [unigramStep, hC]
    refine ⟨?_, ?_, ?_⟩
    · rw [hfin]
      exact List.mem_cons_self _ _
    · intro r hr
      rw [hfin] at hr
      have : r = GeoResult.ofEntry "New York" e1 := by simpa using hr
      subst this
      exact ⟨(by decide : ("New York" : String) ≠ "New"),
             (by decide : ("New York" : String) ≠ "York")⟩
    · intro c hc
      simp [hC] at hc
  · have hfin : find_mentions_words index ["New", "York", "City"] =
        [GeoResult.ofEntry "New York" e1, GeoResult.ofEntry "City" c] := by
      rw [hout]
      simp [unigramStep, hC]
    refine ⟨?_, ?_, ?_⟩
    · rw [hfin]
      exact List.mem_cons_self _ _
    · intro r hr
      rw [hfin] at hr
      rcases by simpa using hr with h | h
      · subst h
        exact ⟨(by decide : ("New York" : String) ≠ "New"),
               (by decide : ("New York" : String) ≠ "York")⟩
      · subst h
        exact ⟨(by decide : ("City" : String) ≠ "New"),
               (by decide : ("City" : String) ≠ "York")⟩
    · intro c2 hc2
      have : c2 = c := by simpa using hc2.symm
      subst this
      rw [hfin]
      exact List.mem_cons_of_mem _ (List.mem_cons_self _ _)

/-- Witness for C2 against a concrete gazetteer holding `"New York"`
and `"City"`: the bigram and the `"City"` unigram are both emitted, and
the bigram match's key is not `"New"`. -/
theorem claim_C2_witness :
    GeoResult.ofEntry "New York" nyEntry ∈ find_mentions_words nyIndex ["New", "York", "City"] ∧
    GeoResult.ofEntry "City" cityEntry ∈ find_mentions_words nyIndex ["New", "York", "City"] ∧
    (GeoResult.ofEntry "New York" nyEntry).key ≠ "New" := by
  obtain ⟨h1, h2, h3⟩ := claim_C2 nyIndex nyEntry (by decide) (by decide)
  exact ⟨h1, h3 cityEntry (by decide), (h2 _ h1).1⟩

/-- Membership in the consumed-word set is preserved by further bigram
steps. -/
theorem bigram_acc_mono (index : Gazetteer) (w : String) :
    ∀ (bgs : List (String × String)) (acc : List GeoResult × List String),
      w ∈ acc.2 → w ∈ (bgs.foldl (bigramStep index) acc).2
  | [], _, h => h
  | bg :: bgs, acc, h => by
    rw [List.foldl_cons]
    apply bigram_acc_mono index w bgs
    rcases hbg : index (bg.1 ++ " " ++ bg.2) with _ | e
    · simpa [bigramStep, hbg] using h
    · simp [bigramStep, hbg]
      exact Or.inl h

/-- If some adjacent pair in the probed list hits the gazetteer, both of
its constituent words end up in the consumed-word set. -/
theorem bigram_matched_mem (index : Gazetteer) (a b w : String) (e : GeoEntry)
    (hhit : index (a ++ " " ++ b) = some e) (hw : w = a ∨ w = b) :
    ∀ (bgs : List (String × String)) (acc : List GeoResult × List String),
      (a, b) ∈ bgs → w ∈ (bgs.foldl (bigramStep index) acc).2
  | [], _, hmem => absurd hmem (List.not_mem_nil _)
  | bg :: bgs, acc, hmem => by
    rw [List.foldl_cons]
    rcases List.mem_cons.mp hmem with heq | htail
    · apply bigram_acc_mono index w bgs
      rw [← heq]
      simp only [bigramStep, hhit]
      rcases hw with rfl | rfl
      · simp
      · simp
    · exact bigram_matched_mem index a b w e hhit hw bgs (bigramStep index acc bg) htail

/-- Every match the bigram pass accumulates has a key containing a
space (bigram keys are two words joined by a single space). -/
theorem bigram_acc_space (index : Gazetteer) :
    ∀ (bgs : List (String × String)) (acc : List GeoResult × List String),
      (∀ r ∈ acc.1, ' ' ∈ r.key.data) →
      ∀ r ∈ (bgs.foldl (bigramStep index) acc).1, ' ' ∈ r.key.data
  | [], _, h => h
  | bg :: bgs, acc, h => by
    rw [List.foldl_cons]
    apply bigram_acc_space index bgs
    intro r hr
    rcases hbg : index (bg.1 ++ " " ++ bg.2) with _ | e
    · simp only [bigramStep, hbg] at hr
      exact h r hr
    · simp only [bigramStep, hbg] at hr
      rcases List.mem_append.mp hr with h1 | h2
      · exact h r h1
      · have : r = GeoResult.ofEntry (bg.1 ++ " " ++ bg.2) e := by simpa using h2
        subst this
        show ' ' ∈ (bg.1 ++ " " ++ bg.2).data
        have hdata : (bg.1 ++ " " ++ bg.2).data = (bg.1.data ++ [' ']) ++ bg.2.data := rfl
        rw [hdata]
        simp

/-- If `w` is in the consumed-word set, the unigram pass never emits a
match whose key is `w`, at any of its occurrences. -/
theorem unigram_skip (index : Gazetteer) (matched : List String) (w : String)
    (hw : w ∈ matched) :
    ∀ (ws : List String) (acc : List GeoResult),
      (∀ r ∈ acc, r.key ≠ w) →
      ∀ r ∈ ws.foldl (unigramStep index matched) acc, r.key ≠ w
  | [], _, h => h
  | word :: ws, acc, h => by
    rw [List.foldl_cons]
    apply unigram_skip index matched w hw ws
    intro r hr
    by_cases hmem : word ∈ matched
    · rw [unigramStep, if_pos hmem] at hr
      exact h r hr
    · rw [unigramStep, if_neg hmem] at hr
      rcases hidx : index word with _ | e
      · rw [hidx] at hr
        exact h r hr
      · rw [hidx] at hr
        rcases List.mem_append.mp hr with h1 | h2
        · exact h r h1
        · have : r = GeoResult.ofEntry word e := by simpa using h2
          subst this
          intro hkey
          have hkey2 : word = w := hkey
          subst hkey2
          exact hmem hw

/-- C9: suppression is by word value, not position — whenever some
adjacent pair of the token list hits the gazetteer, no match whose key
equals either constituent word (a space-free token) is ever emitted, in
particular not for occurrences of that word outside the matched pair. -/
theorem claim_C9 (index : Gazetteer) (words : List String) (a b w : String)
    (e : GeoEntry) (hmem : (a, b) ∈ generate_bigrams words)
    (hhit : index (a ++ " " ++ b) = some e) (hw : w = a ∨ w = b)
    (hsp : ' ' ∉ w.data) :
    ∀ r ∈ find_mentions_words index words, r.key ≠ w := by
  rcases words with _ | ⟨w1, _ | ⟨w2, rest⟩⟩
  · simp [generate_bigrams] at hmem
  · simp [generate_bigrams] at hmem
  · intro r hr
    have hshape : find_mentions_words index (w1 :: w2 :: rest) =
        (w1 :: w2 :: rest).foldl
          (unigramStep index
            ((generate_bigrams (w1 :: w2 :: rest)).foldl (bigramStep index) ([], [])).2)
          ((generate_bigrams (w1 :: w2 :: rest)).foldl (bigramStep index) ([], [])).1 := rfl
    rw [hshape] at hr
    have hwm : w ∈ ((generate_bigrams (w1 :: w2 :: rest)).foldl (bigramStep index) ([], [])).2 :=
      bigram_matched_mem index a b w e hhit hw _ ([], []) hmem
    have hkeys : ∀ r2 ∈ ((generate_bigrams (w1 :: w2 :: rest)).foldl (bigramStep index) ([], [])).1,
        ' ' ∈ r2.key.data :=
      bigram_acc_space index _ ([], []) (by intro r2 hr2; simp at hr2)
    have hacc : ∀ r2 ∈ ((generate_bigrams (w1 :: w2 :: rest)).foldl (bigramStep index) ([], [])).1,
        r2.key ≠ w := by
      intro r2 hr2 hkey
      exact hsp (hkey ▸ hkeys r2 hr2)
    exact unigram_skip index _ w hwm _ _ hacc r hr

/-- Witness for C9: on tokens `["A", "B", "X", "A"]` with gazetteer keys
`"A B"` and `"A"`, even the final occurrence of `"A"` — outside the
matched bigram span — is suppressed, so the emitted bigram match is the
only place its words appear. -/
theorem claim_C9_witness :
    (GeoResult.ofEntry "A B" abEntry).key ≠ "A" :=
  claim_C9 abIndex ["A", "B", "X", "A"] "A" "B" "A" abEntry (by decide) (by decide)
    (Or.inl rfl) (by decide) (GeoResult.ofEntry "A B" abEntry) (by decide)

/-- Reading a counter after `add`: the value grows by `n` exactly at the
added key. -/
theorem PyCounter.add_val (c : PyCounter) (k k2 : Option String) (n : Nat) :
    (c.add k2 n).val k = c.val k + if k = k2 then n else 0 := by
  by_cases h : k = k2 <;> simp [PyCounter.add, h]

/-- The added key is present in the keys after `add`. -/
theorem PyCounter.mem_add_keys (c : PyCounter) (k2 : Option String) (n : Nat) :
    k2 ∈ (c.add k2 n).keys := by
  by_cases h : k2 ∈ c.keys <;> simp [PyCounter.add, h]

/-- Keys already present survive any further `add`. -/
theorem PyCounter.mem_add_keys_of_mem (c : PyCounter) (k k2 : Option String)
    (n : Nat) (h : k ∈ c.keys) : k ∈ (c.add k2 n).keys := by
  by_cases h2 : k2 ∈ c.keys <;> simp [PyCounter.add, h2, h]

/-- Through the city loop, the combined and the implicit counter receive
identical updates, so equal values stay equal. -/
theorem cityLoop_val_eq (l : List CityMention) :
    ∀ (c i : PyCounter), c.val = i.val →
      ((l.foldl cityStep (c, i)).1).val = ((l.foldl cityStep (c, i)).2).val := by
  induction l with
  | nil => intro c i h; exact h
  | cons city l ih =>
    intro c i h
    rw [List.foldl_cons]
    by_cases ht : truthy city.country_code
    · rw [cityStep, if_pos ht]
      apply ih
      funext x
      simp [PyCounter.add, h]
    · rw [cityStep, if_neg ht]
      exact ih c i h

/-- Through the country loop, the combined counter grows at every key by
exactly what the explicit counter grows by. -/
theorem countryLoop_val (l : List CityMention) :
    ∀ (c e : PyCounter) (k : Option String),
      ((l.foldl countryStep (c, e)).1).val k + e.val k =
      ((l.foldl countryStep (c, e)).2).val k + c.val k := by
  induction l with
  | nil =>
    intro c e k
    rw [List.foldl_nil]
    exact Nat.add_comm _ _
  | cons m l ih =>
    intro c e k
    rw [List.foldl_cons]
    have h := ih (c.add m.country_code m.count) (e.add m.country_code m.count) k
    rw [PyCounter.add_val, PyCounter.add_val] at h
    have hstep : countryStep (c, e) m =
        (c.add m.country_code m.count, e.add m.country_code m.count) := rfl
    rw [hstep]
    omega

/-- Keys of the combined counter are preserved by the city loop. -/
theorem cityLoop_keys_mono (l : List CityMention) :
    ∀ (acc : PyCounter × PyCounter) (k : Option String),
      k ∈ (acc.1).keys → k ∈ ((l.foldl cityStep acc).1).keys := by
  induction l with
  | nil => intro acc k h; exact h
  | cons city l ih =>
    intro acc k h
    rw [List.foldl_cons]
    apply ih
    by_cases ht : truthy city.country_code
    · rw [cityStep, if_pos ht]
      exact PyCounter.mem_add_keys_of_mem _ _ _ _ h
    · rw [cityStep, if_neg ht]
      exact h

/-- A city mention with a truthy country code puts its code among the
combined counter's keys. -/
theorem cityLoop_keys_mem (l : List CityMention) :
    ∀ (acc : PyCounter × PyCounter) (city : CityMention),
      city ∈ l → truthy city.country_code = true →
      city.country_code ∈ ((l.foldl cityStep acc).1).keys := by
  induction l with
  | nil => intro _ _ h _; exact absurd h (List.not_mem_nil _)
  | cons m l ih =>
    intro acc city hmem ht
    rw [List.foldl_cons]
    rcases List.mem_cons.mp hmem with rfl | htail
    · apply cityLoop_keys_mono
      rw [cityStep, if_pos ht]
      exact PyCounter.mem_add_keys _ _ _
    · exact ih _ city htail ht

/-- Keys of the combined counter are preserved by the country loop. -/
theorem countryLoop_keys_mono (l : List CityMention) :
    ∀ (acc : PyCounter × PyCounter) (k : Option String),
      k ∈ (acc.1).keys → k ∈ ((l.foldl countryStep acc).1).keys := by
  induction l with
  | nil => intro acc k h; exact h
  | cons m l ih =>
    intro acc k h
    rw [List.foldl_cons]
    apply ih
    rw [countryStep]
    exact PyCounter.mem_add_keys_of_mem _ _ _ _ h

/-- Every country mention (truthy code or not) puts its code among the
combined counter's keys. -/
theorem countryLoop_keys_mem (l : List CityMention) :
    ∀ (acc : PyCounter × PyCounter) (m : CityMention),
      m ∈ l → m.country_code ∈ ((l.foldl countryStep acc).1).keys := by
  induction l with
  | nil => intro _ _ h; exact absurd h (List.not_mem_nil _)
  | cons m2 l ih =>
    intro acc m hmem
    rw [List.foldl_cons]
    rcases List.mem_cons.mp hmem with rfl | htail
    · apply countryLoop_keys_mono
      rw [countryStep]
      exact PyCounter.mem_add_keys _ _ _
    · exact ih _ m htail

/-- If no country mention carries the code `k`, the explicit counter's
value at `k` is untouched by the country loop. -/
theorem countryLoop_explicit_untouched (l : List CityMention) :
    ∀ (c e : PyCounter) (k : Option String),
      (∀ m ∈ l, m.country_code ≠ k) →
      ((l.foldl countryStep (c, e)).2).val k = e.val k := by
  induction l with
  | nil => intro c e k _; rfl
  | cons m l ih =>
    intro c e k h
    rw [List.foldl_cons]
    have hstep : countryStep (c, e) m =
        (c.add m.country_code m.count, e.add m.country_code m.count) := rfl
    rw [hstep, ih _ _ k (fun m2 h2 => h m2 (List.mem_cons_of_mem m h2)),
      PyCounter.add_val]
    have hne : k ≠ m.country_code :=
      fun he => h m (List.mem_cons_self m l) he.symm
    simp [hne]

/-- The implicit counter's value at any falsy key (absent or empty code)
stays at its initial value through the city loop. -/
theorem cityLoop_implicit_falsy (l : List CityMention) :
    ∀ (c i : PyCounter) (k : Option String), truthy k = false →
      ((l.foldl cityStep (c, i)).2).val k = i.val k := by
  induction l with
  | nil => intro c i k _; rfl
  | cons m l ih =>
    intro c i k hf
    rw [List.foldl_cons]
    by_cases ht : truthy m.country_code
    · rw [cityStep, if_pos ht]
      rw [ih _ _ k hf, PyCounter.add_val]
      have hne : k ≠ m.country_code := by
        intro he
        rw [he, ht] at hf
        exact Bool.false_ne_true hf.symm
      simp [hne]
    · rw [cityStep, if_neg ht]
      exact ih c i k hf

/-- City mentions with a falsy country code are skipped by the city
loop: filtering them away first changes nothing. -/
theorem cityLoop_filter (l : List CityMention) :
    ∀ (acc : PyCounter × PyCounter),
      (l.filter (fun city => truthy city.country_code)).foldl cityStep acc =
      l.foldl cityStep acc := by
  induction l with
  | nil => intro acc; rfl
  | cons m l ih =>
    intro acc
    by_cases ht : truthy m.country_code
    · rw [show (m :: l).filter (fun city => truthy city.country_code) =
          m :: l.filter (fun city => truthy city.country_code) by
        simp [List.filter_cons, ht]]
      rw [List.foldl_cons, List.foldl_cons, ih]
    · rw [show (m :: l).filter (fun city => truthy city.country_code) =
          l.filter (fun city => truthy city.country_code) by
        simp [List.filter_cons, ht]]
      rw [List.foldl_cons, ih]
      have hstep : cityStep acc m = acc := by rw [cityStep, if_neg ht]
      rw [hstep]

/-- C4: in every rollup entry, `total_count = implicit_count +
explicit_count`; and a country code reached only through city mentions
(truthy code, no direct country match) still appears in the rollup, with
`explicit_count = 0`. -/
theorem claim_C4 (res : GeoMentionsResult) :
    (∀ p ∈ res.country_counts,
      p.2.total_count = p.2.implicit_count + p.2.explicit_count) ∧
    (∀ k, (∃ city ∈ res.city_mentions, city.country_code = k ∧ truthy k = true) →
      (∀ country ∈ res.country_mentions, country.country_code ≠ k) →
      (k ∈ res.country_counts.map Prod.fst ∧
       ∀ p ∈ res.country_counts, p.1 = k → p.2.explicit_count = 0)) := by
  constructor
  · intro p hp
    simp only [GeoMentionsResult.country_counts] at hp
    rcases List.mem_map.mp hp with ⟨k, hk, rfl⟩
    dsimp only
    have h1 := congrFun
      (cityLoop_val_eq res.city_mentions PyCounter.empty PyCounter.empty rfl) k
    have h2 := countryLoop_val res.country_mentions
      ((res.city_mentions.foldl cityStep (PyCounter.empty, PyCounter.empty)).1)
      PyCounter.empty k
    have hz : PyCounter.empty.val k = 0 := rfl
    rw [hz] at h2
    omega
  · intro k hcity hnone
    obtain ⟨city, hmem, hcc, ht⟩ := hcity
    have hk : k ∈ ((res.country_mentions.foldl countryStep
        ((res.city_mentions.foldl cityStep (PyCounter.empty, PyCounter.empty)).1,
          PyCounter.empty)).1).keys := by
      apply countryLoop_keys_mono
      show k ∈ ((res.city_mentions.foldl cityStep
        (PyCounter.empty, PyCounter.empty)).1).keys
      rw [← hcc]
      exact cityLoop_keys_mem res.city_mentions (PyCounter.empty, PyCounter.empty)
        city hmem (by rw [hcc]; exact ht)
    constructor
    · simp only [GeoMentionsResult.country_counts, List.map_map]
      exact List.mem_map.mpr ⟨k, hk, rfl⟩
    · intro p hp hpk
      simp only [GeoMentionsResult.country_counts] at hp
      rcases List.mem_map.mp hp with ⟨k2, _, rfl⟩
      have hk2 : k2 = k := hpk
      subst hk2
      dsimp only
      rw [countryLoop_explicit_untouched res.country_mentions _ _ k2 hnone]
      rfl

/-- Witness for C4 at a concrete result (one German city mention, one
French country mention): the FR entry satisfies the total invariant and
DE appears in the rollup despite having no direct country match. -/
theorem claim_C4_witness :
    (RollupEntry.mk 1 0 1).total_count =
      (RollupEntry.mk 1 0 1).implicit_count + (RollupEntry.mk 1 0 1).explicit_count ∧
    some "DE" ∈ resRoll.country_counts.map Prod.fst :=
  ⟨(claim_C4 resRoll).1 (some "FR", RollupEntry.mk 1 0 1) (by decide),
   ((claim_C4 resRoll).2 (some "DE") (by decide) (by decide)).1⟩

/-- C10: the rollup is blind to city mentions with a falsy (absent or
empty) country code — filtering them away first yields the identical
rollup, and any falsy key has implicit count 0 — while a country mention
with an absent code is not excluded: its key `none` appears in the
rollup. -/
theorem claim_C10 (res : GeoMentionsResult) :
    res.country_counts =
      (GeoMentionsResult.mk
        (res.city_mentions.filter (fun city => truthy city.country_code))
        res.country_mentions).country_counts ∧
    (∀ p ∈ res.country_counts, truthy p.1 = false → p.2.implicit_count = 0) ∧
    ((∃ c ∈ res.country_mentions, c.country_code = none) →
      none ∈ res.country_counts.map Prod.fst) := by
  refine ⟨?_, ?_, ?_⟩
  · simp only [GeoMentionsResult.country_counts]
    rw [cityLoop_filter]
  · intro p hp hf
    simp only [GeoMentionsResult.country_counts] at hp
    rcases List.mem_map.mp hp with ⟨k, _, rfl⟩
    dsimp only at hf ⊢
    rw [cityLoop_implicit_falsy res.city_mentions _ _ k hf]
    rfl
  · intro hex
    obtain ⟨c, hmem, hcc⟩ := hex
    have hk : (none : Option String) ∈ ((res.country_mentions.foldl countryStep
        ((res.city_mentions.foldl cityStep (PyCounter.empty, PyCounter.empty)).1,
          PyCounter.empty)).1).keys := by
      rw [← hcc]
      exact countryLoop_keys_mem res.country_mentions _ c hmem
    simp only [GeoMentionsResult.country_counts, List.map_map]
    exact List.mem_map.mpr ⟨none, hk, rfl⟩

/-- Witness for C10 at a concrete result whose city mention lacks a code
and whose country mention lacks a code: the rollup ignores the city but
contains the key `none` from the country mention. -/
theorem claim_C10_witness :
    resNone.country_counts =
      (GeoMentionsResult.mk
        (resNone.city_mentions.filter (fun city => truthy city.country_code))
        resNone.country_mentions).country_counts ∧
    none ∈ resNone.country_counts.map Prod.fst :=
  ⟨(claim_C10 resNone).1, (claim_C10 resNone).2.2 (by decide)⟩

/-- Building the dict over a snoc: process the last raw match last. -/
theorem buildDict_concat (kf : GeoResult → String) (l : List GeoResult)
    (x : GeoResult) :
    buildDict kf (l ++ [x]) = dictInsert (buildDict kf l) (kf x) x := by
  simp [buildDict, List.foldl_append]

/-- `dictInsert` keeps the key list unchanged for an existing key and
appends a fresh key at the end. -/
theorem dictInsert_fst (d : List (String × GeoResult)) (k : String)
    (v : GeoResult) :
    (dictInsert d k v).map Prod.fst =
      if k ∈ d.map Prod.fst then d.map Prod.fst else d.map Prod.fst ++ [k] := by
  by_cases h : k ∈ d.map Prod.fst
  · rw [if_pos h]
    have hany : d.any (fun p => decide (p.1 = k)) = true := by
      rcases List.mem_map.mp h with ⟨p, hp, hfst⟩
      exact List.any_eq_true.mpr ⟨p, hp, decide_eq_true hfst⟩
    rw [dictInsert, if_pos hany, List.map_map]
    apply List.map_congr_left
    intro p hp
    by_cases hpk : p.1 = k
    · simp [Function.comp, hpk]
    · simp [Function.comp, hpk]
  · rw [if_neg h]
    have hany : d.any (fun p => decide (p.1 = k)) = false := by
      cases hany2 : d.any (fun p => decide (p.1 = k)) with
      | false => rfl
      | true =>
        obtain ⟨p, hp, hd⟩ := List.any_eq_true.mp hany2
        exact absurd (List.mem_map.mpr ⟨p, hp, of_decide_eq_true hd⟩) h
    rw [dictInsert, if_neg (by simp [hany]), List.map_append]
    rfl

/-- The last raw match with key `k` in a snoc list: the appended match
when its key is `k`, the previous answer otherwise. -/
theorem lastWith_concat (kf : GeoResult → String) (l : List GeoResult)
    (x : GeoResult) (k : String) :
    lastWith kf (l ++ [x]) k = if kf x = k then some x else lastWith kf l k := by
  by_cases hx : kf x = k
  · rw [if_pos hx, lastWith, List.filter_append]
    rw [show List.filter (fun r => decide (kf r = k)) [x] = [x] by simp [hx]]
    exact List.getLast?_concat _
  · rw [if_neg hx, lastWith, lastWith, List.filter_append]
    rw [show List.filter (fun r => decide (kf r = k)) [x] = [] by simp [hx]]
    rw [List.append_nil]

/-- The value stored by the dict comprehension for a key is the last raw
match in the collection carrying that key. -/
theorem buildDict_last (kf : GeoResult → String) (l : List GeoResult) :
    ∀ p ∈ buildDict kf l, lastWith kf l p.1 = some p.2 := by
  induction l using List.reverseRecOn with
  | nil =>
    intro p hp
    exact absurd hp (by simp [buildDict])
  | append_singleton l x ih =>
    intro p hp
    rw [buildDict_concat, dictInsert] at hp
    rw [lastWith_concat]
    by_cases hany : (buildDict kf l).any (fun q => decide (q.1 = kf x)) = true
    · rw [if_pos hany] at hp
      rcases List.mem_map.mp hp with ⟨q, hq, hpq⟩
      by_cases hqk : q.1 = kf x
      · rw [if_pos hqk] at hpq
        subst hpq
        simp
      · rw [if_neg hqk] at hpq
        subst hpq
        rw [if_neg (fun h => hqk h.symm)]
        exact ih q hq
    · rw [if_neg hany] at hp
      rcases List.mem_append.mp hp with h1 | h2
      · have hp1 : p.1 ≠ kf x := by
          intro he
          exact hany (List.any_eq_true.mpr ⟨p, h1, decide_eq_true he⟩)
        rw [if_neg (fun h => hp1 h.symm)]
        exact ih p h1
      · have : p = (kf x, x) := by simpa using h2
        subst this
        simp

/-- The key list of the dict of representatives: no duplicates, a key is
present iff some raw match carries it, and the keys are ordered by the
first appearance of each key in the collection. -/
theorem buildDict_keys (kf : GeoResult → String) (l : List GeoResult) :
    ((buildDict kf l).map Prod.fst).Nodup ∧
    (∀ k, k ∈ (buildDict kf l).map Prod.fst ↔ ∃ r ∈ l, kf r = k) ∧
    ((buildDict kf l).map Prod.fst).Pairwise
      (fun k1 k2 => firstKeyIdx kf l k1 < firstKeyIdx kf l k2) := by
  induction l using List.reverseRecOn with
  | nil => exact ⟨by simp [buildDict], by simp [buildDict], by simp [buildDict]⟩
  | append_singleton l x ih =>
    obtain ⟨hnd, hiff, hpw⟩ := ih
    have hconcat : (buildDict kf (l ++ [x])).map Prod.fst =
        if kf x ∈ (buildDict kf l).map Prod.fst then (buildDict kf l).map Prod.fst
        else (buildDict kf l).map Prod.fst ++ [kf x] := by
      rw [buildDict_concat, dictInsert_fst]
    have hfk_old : ∀ k, (∃ r ∈ l, kf r = k) →
        firstKeyIdx kf (l ++ [x]) k = firstKeyIdx kf l k := by
      intro k hex
      simp only [firstKeyIdx]
      rw [List.findIdx_append, if_pos (List.findIdx_lt_length.mpr
        (by obtain ⟨r, hr, hkr⟩ := hex; exact ⟨r, hr, decide_eq_true hkr⟩))]
    have hfk_oldlt : ∀ k, (∃ r ∈ l, kf r = k) → firstKeyIdx kf l k < l.length := by
      intro k hex
      exact List.findIdx_lt_length.mpr
        (by obtain ⟨r, hr, hkr⟩ := hex; exact ⟨r, hr, decide_eq_true hkr⟩)
    have hfk_new : (¬ ∃ r ∈ l, kf r = kf x) →
        firstKeyIdx kf (l ++ [x]) (kf x) = l.length := by
      intro hnex
      simp only [firstKeyIdx]
      rw [List.findIdx_append, if_neg (fun hlt => hnex
        (by rcases List.findIdx_lt_length.mp hlt with ⟨r, hr, hd⟩
            exact ⟨r, hr, of_decide_eq_true hd⟩))]
      simp [List.findIdx_cons]
    by_cases hmem : kf x ∈ (buildDict kf l).map Prod.fst
    · rw [hconcat, if_pos hmem]
      have hexx : ∃ r ∈ l, kf r = kf x := (hiff (kf x)).mp hmem
      refine ⟨hnd, ?_, ?_⟩
      · intro k
        rw [hiff k]
        constructor
        · rintro ⟨r, hr, hkr⟩
          exact ⟨r, List.mem_append_left _ hr, hkr⟩
        · rintro ⟨r, hr, hkr⟩
          rcases List.mem_append.mp hr with h1 | h2
          · exact ⟨r, h1, hkr⟩
          · have hrx : r = x := by simpa using h2
            subst hrx
            subst hkr
            exact hexx
      · refine List.Pairwise.imp_of_mem ?_ hpw
        intro a b ha hb hab
        rw [hfk_old a ((hiff a).mp ha), hfk_old b ((hiff b).mp hb)]
        exact hab
    · rw [hconcat, if_neg hmem]
      have hnex : ¬ ∃ r ∈ l, kf r = kf x := fun hex => hmem ((hiff (kf x)).mpr hex)
      refine ⟨?_, ?_, ?_⟩
      · rw [List.nodup_append]
        refine ⟨hnd, List.nodup_singleton _, ?_⟩
        intro a ha hax
        have hax2 : a = kf x := by simpa using hax
        subst hax2
        exact hmem ha
      · intro k
        constructor
        · intro hk
          rcases List.mem_append.mp hk with h1 | h2
          · obtain ⟨r, hr, hkr⟩ := (hiff k).mp h1
            exact ⟨r, List.mem_append_left _ hr, hkr⟩
          · have hkx : k = kf x := by simpa using h2
            subst hkx
            exact ⟨x, List.mem_append_right _ (List.mem_cons_self _ _), rfl⟩
        · rintro ⟨r, hr, hkr⟩
          rcases List.mem_append.mp hr with h1 | h2
          · exact List.mem_append_left _ ((hiff k).mpr ⟨r, h1, hkr⟩)
          · have hrx : r = x := by simpa using h2
            subst hrx
            subst hkr
            exact List.mem_append_right _ (List.mem_cons_self _ _)
      · rw [List.pairwise_append]
        refine ⟨?_, List.pairwise_singleton _ _, ?_⟩
        · refine List.Pairwise.imp_of_mem ?_ hpw
          intro a b ha hb hab
          rw [hfk_old a ((hiff a).mp ha), hfk_old b ((hiff b).mp hb)]
          exact hab
        · intro a ha b hb
          have hbx : b = kf x := by simpa using hb
          subst hbx
          rw [hfk_old a ((hiff a).mp ha), hfk_new hnex]
          exact hfk_oldlt a ((hiff a).mp ha)

/-- Counting occurrences of a key in a duplicate-free key list gives one
or zero according to membership. -/
theorem countP_nodup_key (k : String) :
    ∀ keys : List String, keys.Nodup →
      List.countP (fun s => decide (s = k)) keys = if k ∈ keys then 1 else 0 := by
  intro keys
  induction keys with
  | nil => intro _; simp
  | cons a t ih =>
    intro h
    obtain ⟨ha, ht⟩ := List.nodup_cons.mp h
    rw [List.countP_cons, ih ht]
    by_cases hak : a = k
    · subst hak
      simp [ha]
    · have hka : ¬(k = a) := fun h2 => hak h2.symm
      simp [hak, hka]

/-- Two distinct members of a list form a pair sublist in one of the two
orders. -/
theorem pair_sublist_of_mem {α : Type} {l : List α} {a b : α} :
    a ∈ l → b ∈ l → a ≠ b → [a, b].Sublist l ∨ [b, a].Sublist l := by
  induction l with
  | nil => intro h _ _; exact absurd h (List.not_mem_nil _)
  | cons c t ih =>
    intro ha hb hne
    rcases List.mem_cons.mp ha with rfl | hat
    · have hbt : b ∈ t := by
        rcases List.mem_cons.mp hb with hbc | h
        · exact absurd hbc.symm hne
        · exact h
      exact Or.inl (List.Sublist.cons₂ _ (List.singleton_sublist.mpr hbt))
    · rcases List.mem_cons.mp hb with rfl | hbt
      · have hat2 : a ∈ t := hat
        exact Or.inr (List.Sublist.cons₂ _ (List.singleton_sublist.mpr hat2))
      · exact (ih hat hbt hne).imp (List.Sublist.cons _) (List.Sublist.cons _)

/-- In a duplicate-free list, a pair cannot be a sublist in both orders
unless its two elements coincide. -/
theorem pair_sublist_asymm {α : Type} {l : List α} {a b : α} (hnd : l.Nodup) :
    [a, b].Sublist l → [b, a].Sublist l → a = b := by
  induction l with
  | nil => intro h _; exact absurd h (by simp)
  | cons c t ih =>
    intro h1 h2
    obtain ⟨hc, hnt⟩ := List.nodup_cons.mp hnd
    cases h1 with
    | cons _ h1t =>
      cases h2 with
      | cons _ h2t => exact ih hnt h1t h2t
      | cons₂ _ h2t => exact absurd (h1t.subset (by simp)) hc
    | cons₂ _ h1t =>
      cases h2 with
      | cons _ h2t => exact absurd (h2t.subset (by simp)) hc
      | cons₂ _ h2t => rfl

/-- C8: the non-count fields of every aggregated mention (country code,
population, coordinates) are taken from the last raw match in input
order carrying that grouping key — Python dict comprehension semantics,
hence deterministic. -/
theorem claim_C8 (collection : List GeoResult) (std : Bool) :
    ∀ m ∈ count_results collection std,
      (lastWith (keyFn std) collection m.name).map
        (fun r => (r.country_code, r.population, r.coordinates)) =
      some (m.country_code, m.population, m.coordinates) := by
  intro m hm
  have hperm : (count_results collection std).Perm
      ((buildDict (keyFn std) collection).map (mkMention (keyFn std) collection)) :=
    List.perm_insertionSort mentionGE _
  rcases List.mem_map.mp (hperm.mem_iff.mp hm) with ⟨p, hp, hpm⟩
  subst hpm
  rw [show (mkMention (keyFn std) collection p).name = p.1 from rfl,
    buildDict_last (keyFn std) collection p hp]
  rfl

/-- Witness for C8: in `[rX, rZ, rY]` with standardization on, the
mention for name `"N"` carries the fields of `rY`, the last raw match
with that name. -/
theorem claim_C8_witness :
    (lastWith (keyFn true) collAgg mAggN.name).map
      (fun r => (r.country_code, r.population, r.coordinates)) =
    some (mAggN.country_code, mAggN.population, mAggN.coordinates) :=
  claim_C8 collAgg true mAggN (by decide)

/-- C3: aggregation correctness — every grouping key occurring in the
collection yields exactly one mention, whose count is the number of raw
matches with that key; the output is sorted descending by count; and two
mentions with equal counts appear in the order of the first appearance
of their keys in the collection. -/
theorem claim_C3 (collection : List GeoResult) (std : Bool) :
    (∀ k, ((count_results collection std).filter
        (fun m => decide (m.name = k))).length =
      if collection.any (fun r => decide (keyFn std r = k)) then 1 else 0) ∧
    (∀ m ∈ count_results collection std,
      m.count = countKey (keyFn std) collection m.name) ∧
    (count_results collection std).Sorted mentionGE ∧
    (∀ m1 m2 : CityMention, [m1, m2].Sublist (count_results collection std) →
      m1.count = m2.count →
      firstKeyIdx (keyFn std) collection m1.name <
        firstKeyIdx (keyFn std) collection m2.name) := by
  obtain ⟨hnd, hiff, hpw⟩ := buildDict_keys (keyFn std) collection
  have hperm : (count_results collection std).Perm
      ((buildDict (keyFn std) collection).map (mkMention (keyFn std) collection)) :=
    List.perm_insertionSort mentionGE _
  refine ⟨?_, ?_, ?_, ?_⟩
  · intro k
    rw [← List.countP_eq_length_filter, List.Perm.countP_eq _ hperm,
      List.countP_map]
    rw [show ((fun m => decide (m.name = k)) ∘ mkMention (keyFn std) collection)
        = ((fun s => decide (s = k)) ∘ Prod.fst) from rfl]
    rw [← List.countP_map, countP_nodup_key k _ hnd]
    by_cases hex : ∃ r ∈ collection, keyFn std r = k
    · rw [if_pos ((hiff k).mpr hex), if_pos (List.any_eq_true.mpr
        (by obtain ⟨r, hr, hkr⟩ := hex; exact ⟨r, hr, decide_eq_true hkr⟩))]
    · rw [if_neg (fun hmem => hex ((hiff k).mp hmem)),
        if_neg (fun hany => hex (by
          rcases List.any_eq_true.mp hany with ⟨r, hr, hd⟩
          exact ⟨r, hr, of_decide_eq_true hd⟩))]
  · intro m hm
    rcases List.mem_map.mp (hperm.mem_iff.mp hm) with ⟨p, hp, hpm⟩
    subst hpm
    rfl
  · exact List.sorted_insertionSort mentionGE _
  · intro m1 m2 hsub hcnt
    have houtnd : (count_results collection std).Nodup := by
      refine hperm.nodup_iff.mpr ?_
      refine List.Nodup.of_map (fun m : CityMention => m.name) ?_
      rw [List.map_map]
      exact hnd
    have hne : m1 ≠ m2 := by
      have hp12 := hsub.nodup houtnd
      simp only [List.nodup_cons, List.mem_singleton] at hp12
      exact hp12.1
    have hm1 : m1 ∈ (buildDict (keyFn std) collection).map
        (mkMention (keyFn std) collection) :=
      hperm.mem_iff.mp (hsub.subset (by simp))
    have hm2 : m2 ∈ (buildDict (keyFn std) collection).map
        (mkMention (keyFn std) collection) :=
      hperm.mem_iff.mp (hsub.subset (by simp))
    have hprepw : ((buildDict (keyFn std) collection).map
        (mkMention (keyFn std) collection)).Pairwise
        (fun a b => firstKeyIdx (keyFn std) collection a.name <
          firstKeyIdx (keyFn std) collection b.name) := by
      rw [List.pairwise_map]
      rw [List.pairwise_map] at hpw
      exact hpw
    rcases pair_sublist_of_mem hm1 hm2 hne with hpre | hpre
    · have hp2 := List.Pairwise.sublist hpre hprepw
      exact (List.pairwise_cons.mp hp2).1 m2 (List.mem_cons_self _ _)
    · exfalso
      have hge : mentionGE m2 m1 := le_of_eq hcnt
      have hs2 : [m2, m1].Sublist (count_results collection std) :=
        List.pair_sublist_insertionSort hge hpre
      exact hne (pair_sublist_asymm houtnd hsub hs2)

/-- Witness for C3: in `[rX, rZ]` both grouping keys have count 1, and
the tied mentions come out in first-appearance order (`"N"` before
`"M"`). -/
theorem claim_C3_witness :
    firstKeyIdx (keyFn true) collTie mTieN.name <
      firstKeyIdx (keyFn true) collTie mTieM.name :=
  (claim_C3 collTie true).2.2.2 mTieN mTieM
    (by rw [show count_results collTie true = [mTieN, mTieM] from by decide])
    (by decide)
